import Mathlib

/-!
Verification development for the wurstmineberg/people database tool
(`src/people/people.py`).  The Python code is shallowly embedded:

* JSON documents become the inductive type `JVal`; Python `dict`s become
  insertion-ordered association lists (`JObj`), with `objSet` mirroring
  Python's `d[k] = v` (update keeps the key's position, a fresh key is
  appended) and `objDel` mirroring `del d[k]`.
* Timestamps are embedded as `PyDate` (a UTC calendar tuple); the
  `iso8601.parse_date` calls of the source are embedded by `parseIso`,
  which accepts the UTC ISO-8601 shapes the repository's data uses
  (`YYYY-MM-DD`, `YYYY-MM-DDTHH:MM:SS`, optionally suffixed `Z` or
  `+00:00`).  `datetime` comparison is `pdLt` (chronological).
* Fallible Python code returns `Except PyErr`; the constructors of
  `PyErr` name the Python exception classes raised by the source.
-/

/-- A UTC timestamp as the source's `datetime.datetime` values: a
calendar tuple (year, month, day, hour, minute, second). -/
structure PyDate where
  year : Nat
  month : Nat
  day : Nat
  hour : Nat
  minute : Nat
  second : Nat
deriving DecidableEq, Repr

/-- Positional encoding of a `PyDate`; on in-range dates (month, day,
hour, minute, second all below 100) its numeric order is exactly the
chronological (lexicographic) order, which is what Python's `datetime`
comparison uses. -/
def PyDate.code (t : PyDate) : Nat :=
  ((((t.year * 100 + t.month) * 100 + t.day) * 100 + t.hour) * 100 + t.minute) * 100 + t.second

/-- `a < b` on `datetime` values (chronological order). -/
def pdLt (a b : PyDate) : Bool := a.code < b.code

/-- The postfreeze cutoff `datetime.datetime(2013, 11, 2, 17, 33, 45, tzinfo=utc)`
of `PersonConverter._convert_v3_v2`. -/
def cutoffDate : PyDate := ⟨2013, 11, 2, 17, 33, 45⟩

/-- A JSON value as stored in the `people` table, plus `pydate` for the
Python `datetime` objects that `_convert_v3_v2` stores under the
transient `SORT_DATE` key.  Python dicts are embedded as ordered
association lists (Python ≥ 3.7 iteration order is insertion order,
which the converters rely on). -/
inductive JVal where
  | null : JVal
  | bool : Bool → JVal
  | num : Int → JVal
  | str : String → JVal
  | arr : List JVal → JVal
  | obj : List (String × JVal) → JVal
  | pydate : PyDate → JVal

/-- An embedded Python dict. -/
abbrev JObj := List (String × JVal)

/-- Python `v == s` between a dict value and a string literal: true iff
the value is that string. -/
def JVal.eqStr : JVal → String → Bool
  | .str a, b => a == b
  | _, _ => false

/-- Python `k in d` for a dict. -/
def containsKey : JObj → String → Bool
  | [], _ => false
  | (k', _) :: rest, k => k' == k || containsKey rest k

/-- Python `d[k]` lookup (`none` would raise `KeyError`). -/
def objGet : JObj → String → Option JVal
  | [], _ => none
  | (k', v) :: rest, k => if k' == k then some v else objGet rest k

/-- Helper for `objSet`: replace the value at every further occurrence of
the key (a real dict has at most one) without appending. -/
def objSetRest : JObj → String → JVal → JObj
  | [], _, _ => []
  | (k', w) :: rest, k, v =>
    if k' == k then (k, v) :: objSetRest rest k v else (k', w) :: objSetRest rest k v

/-- Python `d[k] = v`: updating an existing key keeps its position,
a fresh key is appended at the end. -/
def objSet : JObj → String → JVal → JObj
  | [], k, v => [(k, v)]
  | (k', w) :: rest, k, v =>
    if k' == k then (k, v) :: objSetRest rest k v else (k', w) :: objSet rest k v

/-- Python `del d[k]` (removes the key; on a dict no key occurs twice, so
removing every occurrence from the association list is the same). -/
def objDel : JObj → String → JObj
  | [], _ => []
  | (k', w) :: rest, k => if k' == k then objDel rest k else (k', w) :: objDel rest k

theorem objGet_objSetRest_ne (l : JObj) (k k' : String) (v : JVal) (h : k' ≠ k) :
    objGet (objSetRest l k v) k' = objGet l k' := by
  induction l with
  | nil => rfl
  | cons hd tl ih =>
    obtain ⟨hk, hv⟩ := hd
    have hkk' : (k == k') = false := beq_eq_false_iff_ne.mpr (Ne.symm h)
    by_cases hkk : hk = k
    · subst hkk
      simp [objSetRest, objGet, hkk', ih]
    · have : (hk == k) = false := beq_eq_false_iff_ne.mpr hkk
      simp only [objSetRest, this, Bool.false_eq_true, if_neg, objGet]
      split
      · rfl
      · exact ih

theorem objGet_objSet_self (l : JObj) (k : String) (v : JVal) :
    objGet (objSet l k v) k = some v := by
  induction l with
  | nil => simp [objSet, objGet]
  | cons hd tl ih =>
    obtain ⟨hk, hv⟩ := hd
    by_cases hkk : hk = k
    · subst hkk
      simp [objSet, objGet]
    · have : (hk == k) = false := beq_eq_false_iff_ne.mpr hkk
      simp [objSet, objGet, this, ih]

theorem objGet_objSet_ne (l : JObj) (k k' : String) (v : JVal) (h : k' ≠ k) :
    objGet (objSet l k v) k' = objGet l k' := by
  induction l with
  | nil =>
    have hkk' : (k == k') = false := beq_eq_false_iff_ne.mpr (Ne.symm h)
    simp [objSet, objGet, hkk']
  | cons hd tl ih =>
    obtain ⟨hk, hv⟩ := hd
    have hkk' : (k == k') = false := beq_eq_false_iff_ne.mpr (Ne.symm h)
    by_cases hkk : hk = k
    · subst hkk
      simp [objSet, objGet, hkk', objGet_objSetRest_ne _ _ _ _ h]
    · have : (hk == k) = false := beq_eq_false_iff_ne.mpr hkk
      simp only [objSet, this, Bool.false_eq_true, if_neg, objGet]
      split
      · rfl
      · exact ih

theorem objGet_objDel_self (l : JObj) (k : String) :
    objGet (objDel l k) k = none := by
  induction l with
  | nil => rfl
  | cons hd tl ih =>
    obtain ⟨hk, hv⟩ := hd
    by_cases hkk : hk = k
    · subst hkk
      simpa [objDel] using ih
    · have : (hk == k) = false := beq_eq_false_iff_ne.mpr hkk
      simp [objDel, objGet, this, ih]

theorem objGet_objDel_ne (l : JObj) (k k' : String) (h : k' ≠ k) :
    objGet (objDel l k) k' = objGet l k' := by
  induction l with
  | nil => rfl
  | cons hd tl ih =>
    obtain ⟨hk, hv⟩ := hd
    by_cases hkk : hk = k
    · subst hkk
      have : (hk == k') = false := beq_eq_false_iff_ne.mpr (Ne.symm h)
      simp [objDel, objGet, this, ih]
    · have : (hk == k) = false := beq_eq_false_iff_ne.mpr hkk
      simp only [objDel, this, Bool.false_eq_true, if_neg, objGet]
      split
      · rfl
      · exact ih

theorem containsKey_objDel_self (l : JObj) (k : String) :
    containsKey (objDel l k) k = false := by
  induction l with
  | nil => rfl
  | cons hd tl ih =>
    obtain ⟨hk, hv⟩ := hd
    by_cases hkk : hk = k
    · subst hkk
      simpa [objDel] using ih
    · have : (hk == k) = false := beq_eq_false_iff_ne.mpr hkk
      simp [objDel, containsKey, this, ih]

theorem containsKey_objDel_ne (l : JObj) (k k' : String) (h : k' ≠ k) :
    containsKey (objDel l k) k' = containsKey l k' := by
  induction l with
  | nil => rfl
  | cons hd tl ih =>
    obtain ⟨hk, hv⟩ := hd
    by_cases hkk : hk = k
    · subst hkk
      have : (hk == k') = false := beq_eq_false_iff_ne.mpr (Ne.symm h)
      simp [objDel, containsKey, this, ih]
    · have : (hk == k) = false := beq_eq_false_iff_ne.mpr hkk
      simp [objDel, containsKey, this, ih]

theorem containsKey_eq_isSome (l : JObj) (k : String) :
    containsKey l k = (objGet l k).isSome := by
  induction l with
  | nil => rfl
  | cons hd tl ih =>
    obtain ⟨hk, hv⟩ := hd
    by_cases hkk : hk = k
    · subst hkk
      simp [containsKey, objGet]
    · have : (hk == k) = false := beq_eq_false_iff_ne.mpr hkk
      simp [containsKey, objGet, this, ih]

/-- The Python exception classes that the embedded code can raise.
`valueError` carries a short tag standing for the source's message
(`"badStatus"`, `"reasonRequired"`, `"reasonForbidden"`, `"badBy"`,
`"sameStatus"`, `"alreadyExists"`); `pathNotFound` is
`dpath.exceptions.PathNotFound`; `parseError` is `iso8601.ParseError`. -/
inductive PyErr where
  | keyError (k : String)
  | valueError (tag : String)
  | typeError
  | indexError
  | pathNotFound (p : String)
  | parseError
deriving DecidableEq, Repr

/-- Numeric value of an ASCII digit. -/
def digitVal (c : Char) : Option Nat :=
  if c.isDigit then some (c.toNat - 48) else none

/-- Two-digit decimal number. -/
def parse2 (a b : Char) : Option Nat :=
  match digitVal a, digitVal b with
  | some x, some y => some (x * 10 + y)
  | _, _ => none

/-- Four-digit decimal number. -/
def parse4 (a b c d : Char) : Option Nat :=
  match digitVal a, digitVal b, digitVal c, digitVal d with
  | some x, some y, some z, some w => some (((x * 10 + y) * 10 + z) * 10 + w)
  | _, _, _, _ => none

/-- Field extraction for the two ISO-8601 shapes used by the repository's
data: `YYYY-MM-DD` and `YYYY-MM-DDTHH:MM:SS`. -/
def parseIsoFields : List Char → Option PyDate
  | [y1, y2, y3, y4, '-', m1, m2, '-', d1, d2] =>
    match parse4 y1 y2 y3 y4, parse2 m1 m2, parse2 d1 d2 with
    | some y, some mo, some d => some ⟨y, mo, d, 0, 0, 0⟩
    | _, _, _ => none
  | [y1, y2, y3, y4, '-', m1, m2, '-', d1, d2, 'T', h1, h2, ':', n1, n2, ':', s1, s2] =>
    match parse4 y1 y2 y3 y4, parse2 m1 m2, parse2 d1 d2, parse2 h1 h2, parse2 n1 n2, parse2 s1 s2 with
    | some y, some mo, some d, some h, some n, some s => some ⟨y, mo, d, h, n, s⟩
    | _, _, _, _, _, _ => none
  | _ => none

/-- Calendar-range check (`iso8601.parse_date` rejects out-of-range fields). -/
def validDate (t : PyDate) : Bool :=
  decide (1 ≤ t.month) && decide (t.month ≤ 12) && decide (1 ≤ t.day) && decide (t.day ≤ 31) &&
  decide (t.hour ≤ 23) && decide (t.minute ≤ 59) && decide (t.second ≤ 59)

/-- `iso8601.parse_date` restricted to the UTC shapes the repository's data
uses (`none` stands for a raised `iso8601.ParseError`).  All dates in the
database are UTC, so dropping a trailing `Z` or `+00:00` loses nothing. -/
def parseIso (s : String) : Option PyDate :=
  let cs := s.toList
  let rs := cs.reverse
  let core :=
    if rs.take 1 = ['Z'] then (rs.drop 1).reverse
    else if rs.take 6 = ['0', '0', ':', '0', '0', '+'] then (rs.drop 6).reverse
    else cs
  match parseIsoFields core with
  | some t => if validDate t then some t else none
  | none => none

/-- The condition of the `invitedBy` / `join_date` branches of
`PersonConverter._convert_v2_v3` (lines 388 and 393):
`('status' in oldp and oldp['status'] in ['founding', 'later', 'postfreeze', 'invited']) or 'status' not in oldp`. -/
def statusMatchesCurrent (oldp : JObj) : Bool :=
  (containsKey oldp "status" &&
    (match objGet oldp "status" with
     | some v => v.eqStr "founding" || v.eqStr "later" || v.eqStr "postfreeze" || v.eqStr "invited"
     | none => false))
  || !(containsKey oldp "status")

/-- One iteration of the `for key, value in oldp.items()` loop of
`PersonConverter._convert_v2_v3` (lines 346-412).  The state is
`(newp, current_status, previous_status)`.  `oldp` is the input dict
after the pre-loop `status` defaulting (the loop itself never mutates
it).  Shape mismatches that would make Python raise (list concatenation
with a non-list `minecraft_previous`, `"User:" + wiki` with a non-string
`wiki`) are `typeError`. -/
def v2v3Step (oldp : JObj) (st : JObj × JObj × JObj) (kv : String × JVal) :
    Except PyErr (JObj × JObj × JObj) :=
  let newp := st.1
  let cur := st.2.1
  let prev := st.2.2
  let key := kv.1
  let value := kv.2
  if key == "description" then .ok (objSet newp "description" value, cur, prev)
  else if key == "favColor" then .ok (objSet newp "favColor" value, cur, prev)
  else if key == "fav_item" then .ok (objSet newp "base" (.arr [.obj [("tunnelItem", value)]]), cur, prev)
  else if key == "gravatar" then .ok (objSet newp "gravatar" value, cur, prev)
  else if key == "minecraft" then
    match objGet newp "minecraft" with
    | some (.obj mc) =>
      if containsKey oldp "minecraft_previous" then
        match objGet oldp "minecraft_previous" with
        | some (.arr prevNicks) =>
          .ok (objSet newp "minecraft" (.obj (objSet mc "nicks" (.arr (prevNicks ++ [value])))), cur, prev)
        | _ => .error .typeError
      else .ok (objSet newp "minecraft" (.obj (objSet mc "nicks" (.arr [value]))), cur, prev)
    | _ => .error .typeError
  else if key == "minecraft_previous" then .ok st
  else if key == "minecraftUUID" then
    match objGet newp "minecraft" with
    | some (.obj mc) => .ok (objSet newp "minecraft" (.obj (objSet mc "uuid" value)), cur, prev)
    | _ => .error .typeError
  else if key == "name" then .ok (objSet newp "name" value, cur, prev)
  else if key == "options" then .ok (objSet newp "options" value, cur, prev)
  else if key == "reddit" then .ok st
  else if key == "status" then
    let cur1 :=
      if value.eqStr "former" || value.eqStr "founding" || value.eqStr "invited" || value.eqStr "later" then
        objSet cur "status" value
      else if value.eqStr "postfreeze" then objSet cur "status" (.str "later")
      else if value.eqStr "vetoed" then objSet (objSet cur "status" (.str "former")) "reason" (.str "vetoed")
      else cur
    let prev1 :=
      if value.eqStr "former" then
        let p := objSet prev "status" (.str "later")
        if containsKey oldp "invitedBy" then
          match objGet oldp "invitedBy" with
          | some ib => objSet p "by" ib
          | none => p
        else p
      else prev
    .ok (newp, cur1, prev1)
  else if key == "invitedBy" then
    if statusMatchesCurrent oldp then .ok (newp, objSet cur "by" value, prev)
    else .ok (newp, cur, objSet prev "by" value)
  else if key == "join_date" then
    if statusMatchesCurrent oldp then .ok (newp, objSet cur "date" value, prev)
    else .ok (newp, cur, objSet prev "date" value)
  else if key == "slack" then .ok (objSet newp "slack" value, cur, prev)
  else if key == "twitter" then .ok (objSet newp "twitter" (.obj [("username", value)]), cur, prev)
  else if key == "website" then .ok (objSet newp "website" value, cur, prev)
  else if key == "wiki" then
    match value with
    | .str s => .ok (objSet newp "wiki" (.str ("User:" ++ s)), cur, prev)
    | _ => .error .typeError
  else .ok st

/-- Body of `PersonConverter._convert_v2_v3` after the pre-loop `status`
defaulting: the key loop followed by appending `previous_status` and
`current_status` (each only if non-empty, in that order) to
`statusHistory`. -/
def v2v3Body (oldp' : JObj) : Except PyErr JObj := do
  let st ← oldp'.foldlM (v2v3Step oldp') ([("minecraft", .obj []), ("statusHistory", .arr [])], [], [])
  let newp := st.1
  let cur := st.2.1
  let prev := st.2.2
  match objGet newp "statusHistory" with
  | some (.arr hist) =>
    let hist1 := if prev.isEmpty then hist else hist ++ [.obj prev]
    let hist2 := if cur.isEmpty then hist1 else hist1 ++ [.obj cur]
    pure (objSet newp "statusHistory" (.arr hist2))
  | _ => .error .typeError

/-- `PersonConverter._convert_v2_v3` from `src/people/people.py`
(lines 328-419).  Returns the converted v3 document together with the
input dict as the call leaves it: the source mutates its input in one
place (`oldp['status'] = 'later'` on line 344 when the v2 document has
no `status` key), so the second component is the possibly-extended
input dict. -/
def person_convert_v2_v3 (oldp : JObj) : (Except PyErr JObj) × JObj :=
  let oldp' := if containsKey oldp "status" then oldp else objSet oldp "status" (.str "later")
  (v2v3Body oldp', oldp')

/-- The `statusHistory` of a successful v2 → v3 conversion. -/
def convertedHistory (d : JObj) : Option JVal :=
  match (person_convert_v2_v3 d).1 with
  | .ok np => objGet np "statusHistory"
  | .error _ => none

/-- The spec's example v2 document for `alice`. -/
def aliceV2doc : JObj :=
  [("id", .str "alice"), ("status", .str "vetoed"),
   ("invitedBy", .str "bob"), ("join_date", .str "2013-01-01T00:00:00Z")]

/-- The `statusHistory` that claim C1 (the spec's example) predicts for
`aliceV2doc`. -/
def claimedAliceHist : List JVal :=
  [.obj [("status", .str "later"), ("by", .str "bob")],
   .obj [("status", .str "former"), ("by", .str "bob"),
         ("date", .str "2013-01-01T00:00:00Z"), ("reason", .str "vetoed")]]

example : convertedHistory aliceV2doc =
    some (.arr [.obj [("by", .str "bob"), ("date", .str "2013-01-01T00:00:00Z")],
                .obj [("status", .str "former"), ("reason", .str "vetoed")]]) := by
  rfl

/-- C1 counterexample: converting the spec's example v2 document
`{"id":"alice","status":"vetoed","invitedBy":"bob","join_date":"2013-01-01T00:00:00Z"}`
to v3 does NOT yield the claimed
`statusHistory == [{"status":"later","by":"bob"}, {"status":"former","by":"bob","date":...,"reason":"vetoed"}]`:
the code produces `[{"by":"bob","date":"2013-01-01T00:00:00Z"}, {"status":"former","reason":"vetoed"}]`
instead (no synthetic `later` status, and `by`/`date` land on the previous
event, not the current one). -/
theorem C1_counterexample :
    convertedHistory aliceV2doc =
      some (.arr [.obj [("by", .str "bob"), ("date", .str "2013-01-01T00:00:00Z")],
                  .obj [("status", .str "former"), ("reason", .str "vetoed")]])
    ∧ convertedHistory aliceV2doc ≠ some (.arr claimedAliceHist) := by
  constructor
  · rfl
  · intro h
    rw [show convertedHistory aliceV2doc =
        some (.arr [.obj [("by", .str "bob"), ("date", .str "2013-01-01T00:00:00Z")],
                    .obj [("status", .str "former"), ("reason", .str "vetoed")]]) from rfl] at h
    have h1 := Option.some.inj h
    injection h1 with h2
    have h3 : some (JVal.obj [("by", JVal.str "bob"), ("date", JVal.str "2013-01-01T00:00:00Z")]) =
        some (JVal.obj [("status", JVal.str "later"), ("by", JVal.str "bob")]) :=
      congrArg (fun l => l.get? 0) h2
    have h4 := Option.some.inj h3
    injection h4 with h5
    have h6 : some (("by", JVal.str "bob")) = some (("status", JVal.str "later")) :=
      congrArg (fun l => l.get? 0) h5
    have h7 := Option.some.inj h6
    have h8 : "by" = "status" := congrArg Prod.fst h7
    exact absurd h8 (by decide)

/-- C1 (amended): for a v2 document `{id, status, invitedBy: b, join_date: d}`,
the code's v2 → v3 status reconstruction puts `invitedBy` and `join_date` on
the *previous* event, not the current one; the synthetic `later` status is
added only when the v2 status is literally `former` (not for `vetoed`,
although it also maps to a current status of `former`).  Concretely:
status `vetoed` yields `statusHistory == [{by: b, date: d}, {status: former, reason: vetoed}]`,
and status `former` yields `[{status: later, by: b, date: d}, {status: former}]`. -/
theorem C1_theorem (b d : String) :
    convertedHistory
        [("id", .str "alice"), ("status", .str "vetoed"),
         ("invitedBy", .str b), ("join_date", .str d)] =
      some (.arr [.obj [("by", .str b), ("date", .str d)],
                  .obj [("status", .str "former"), ("reason", .str "vetoed")]])
    ∧ convertedHistory
        [("id", .str "alice"), ("status", .str "former"),
         ("invitedBy", .str b), ("join_date", .str d)] =
      some (.arr [.obj [("status", .str "later"), ("by", .str b), ("date", .str d)],
                  .obj [("status", .str "former")]]) := by
  exact ⟨rfl, rfl⟩

/-- C8 counterexample: `PersonConverter._convert_v2_v3` mutates its input
when the v2 document has no `status` key (line 344: `oldp['status'] = 'later'`):
converting `{"id": "alice"}` leaves the input dict changed (a `status` key
was added in place). -/
theorem C8_counterexample :
    (person_convert_v2_v3 [("id", .str "alice")]).2 ≠ [("id", .str "alice")] := by
  intro h
  exact absurd (congrArg List.length h) (by decide)

/-- C8 (amended): v2 → v3 conversion never mutates its input *provided the
input document has a `status` key*; the single in-place mutation of the
source (defaulting a missing `status` to `later`) is then skipped, and the
converter only ever reads `oldp` afterwards. -/
theorem C8_theorem (d : JObj) (h : containsKey d "status" = true) :
    (person_convert_v2_v3 d).2 = d := by
  simp [person_convert_v2_v3, h]

/-- Witness for C8: a concrete document with a `status` key is returned
unchanged. -/
theorem C8_witness :
    containsKey [("status", JVal.str "later")] "status" = true ∧
    (person_convert_v2_v3 [("status", JVal.str "later")]).2 = [("status", JVal.str "later")] :=
  ⟨rfl, C8_theorem [("status", JVal.str "later")] rfl⟩

/-- Python `k in v` for an arbitrary value: key test on a dict, membership
on a list, substring test on a string, `TypeError` otherwise. -/
def pyContains (v : JVal) (k : String) : Except PyErr Bool :=
  match v with
  | .obj o => .ok (containsKey o k)
  | .arr xs => .ok (xs.any (fun x => x.eqStr k))
  | .str s => .ok (decide (k.toList <:+: s.toList))
  | _ => .error .typeError

/-- Python `v[k]` with a string key: dict lookup (`KeyError` when absent),
`TypeError` on anything else. -/
def pyIndex (v : JVal) (k : String) : Except PyErr JVal :=
  match v with
  | .obj o =>
    match objGet o k with
    | some w => .ok w
    | none => .error (.keyError k)
  | _ => .error .typeError

/-- Python `d.get(k, None)` combined with the source's `is not None` /
comparison uses: an absent key and a JSON `null` value are both `None`. -/
def dictGetOpt (o : JObj) (k : String) : Option JVal :=
  match objGet o k with
  | some .null => none
  | x => x

/-- `v in [list of string literals]` on an optional value (`None in [...]`
is false). -/
def jvalOptInStrs (o : Option JVal) (ss : List String) : Bool :=
  match o with
  | some v => ss.any (fun s => v.eqStr s)
  | none => false

/-- The `status`-deriving part of the `statusHistory` branch of
`PersonConverter._convert_v3_v2` (lines 462-484): reads the last event's
fields via `.get`, then derives `v2['status']` from it (direct mapping for
former/founding/invited/later, the postfreeze cutoff rewrite for a dated
`later`, the vetoed rewrite for a `former` with reason `vetoed`, and
`disabled`/`guest` collapsing to `former`). -/
def applyCurStatus (v2 : JObj) (cur : JObj) : Except PyErr JObj :=
  let date? := dictGetOpt cur "date"
  let reason? := dictGetOpt cur "reason"
  let status? := dictGetOpt cur "status"
  if jvalOptInStrs status? ["former", "founding", "invited", "later"] then
    match status? with
    | some sv => do
      let v2a := objSet v2 "status" sv
      let v2b ←
        if sv.eqStr "later" then
          match date? with
          | some dv =>
            match dv with
            | .str ds =>
              match parseIso ds with
              | some pd => pure (if pdLt cutoffDate pd then objSet v2a "status" (.str "postfreeze") else v2a)
              | none => Except.error .parseError
            | _ => Except.error .typeError
          | none => pure v2a
        else pure v2a
      let v2c :=
        if sv.eqStr "former" && (match reason? with | some r => r.eqStr "vetoed" | none => false) then
          objSet v2b "status" (.str "vetoed")
        else v2b
      pure v2c
    | none => .error .typeError
  else if (match status? with | some s => s.eqStr "disabled" | none => false) then
    .ok (objSet v2 "status" (.str "former"))
  else if (match status? with | some s => s.eqStr "guest" | none => false) then
    .ok (objSet v2 "status" (.str "former"))
  else .ok v2

/-- One iteration of the `for item in value` loop of the `statusHistory`
branch (lines 490-499): records the first parsed date as the sort date and
harvests `join_date` / `invitedBy` from the first qualifying event. -/
def datesStep (st : Option PyDate × JObj) (item : JVal) : Except PyErr (Option PyDate × JObj) := do
  let sd := st.1
  let v2 := st.2
  let hasDate ← pyContains item "date"
  let sd1 ←
    if hasDate && sd.isNone then do
      let dv ← pyIndex item "date"
      match dv with
      | .str ds =>
        match parseIso ds with
        | some pd => pure (some pd)
        | none => Except.error .parseError
      | _ => Except.error .typeError
    else pure sd
  let hasStatus ← pyContains item "status"
  if hasStatus then do
    let sv ← pyIndex item "status"
    if sv.eqStr "former" || sv.eqStr "founding" || sv.eqStr "later" || sv.eqStr "invited" || sv.eqStr "guest" then do
      let v2a ←
        if hasDate && !(containsKey v2 "join_date") then do
          let dv ← pyIndex item "date"
          pure (objSet v2 "join_date" dv)
        else pure v2
      let hasBy ← pyContains item "by"
      let v2b ←
        if hasBy && !(containsKey v2a "invitedBy") then do
          let bv ← pyIndex item "by"
          pure (objSet v2a "invitedBy" bv)
        else pure v2a
      pure (sd1, v2b)
    else pure (sd1, v2)
  else pure (sd1, v2)

/-- The whole `statusHistory` branch of `PersonConverter._convert_v3_v2`
(lines 456-504): derive `status` from the last event, harvest
`join_date`/`invitedBy` and the sort date from the event list, then store
the synthetic `SORT_DATE` (falling back to `now` = `datetime.utcnow()`
when no event carries a date, with a logged warning). -/
def statusHistBranch (v2 : JObj) (value : JVal) (now : PyDate) : Except PyErr JObj := do
  match value with
  | .arr evs =>
    match evs.getLast? with
    | none => .error .indexError
    | some lastEv =>
      match lastEv with
      | .obj cur => do
        let v2a ← applyCurStatus v2 cur
        let st ← evs.foldlM datesStep (none, v2a)
        let sortdate := match st.1 with | some pd => pd | none => now
        pure (objSet st.2 "SORT_DATE" (.pydate sortdate))
      | _ => .error .typeError
  | _ => .error .typeError

/-- One iteration of the `for base in value` loop of the `base` branch
(lines 436-438). -/
def baseStep (acc : JObj) (base : JVal) : Except PyErr JObj := do
  let hasTi ← pyContains base "tunnelItem"
  if hasTi then do
    let ti ← pyIndex base "tunnelItem"
    pure (objSet acc "fav_item" ti)
  else pure acc

/-- One iteration of the `for key, value in v3.items()` loop of
`PersonConverter._convert_v3_v2` (lines 430-518). -/
def convStep3to2 (now : PyDate) (v2 : JObj) (kv : String × JVal) : Except PyErr JObj :=
  let key := kv.1
  let value := kv.2
  if key == "alt" then
    match objGet v2 "minecraft_previous", value with
    | some (.arr mp), .arr xs => .ok (objSet v2 "minecraft_previous" (.arr (mp ++ xs)))
    | _, _ => .error .typeError
  else if key == "base" then
    match value with
    | .arr bases => bases.foldlM baseStep v2
    | _ => .error .typeError
  else if key == "description" then .ok (objSet v2 "description" value)
  else if key == "favColor" then .ok (objSet v2 "favColor" value)
  else if key == "gravatar" then .ok (objSet v2 "gravatar" value)
  else if key == "minecraft" then do
    let hasUuid ← pyContains value "uuid"
    let v2a ←
      if hasUuid then do
        let u ← pyIndex value "uuid"
        pure (objSet v2 "minecraftUUID" u)
      else pure v2
    let hasNicks ← pyContains value "nicks"
    if hasNicks then do
      let nv ← pyIndex value "nicks"
      match nv with
      | .arr nicks =>
        match nicks.head? with
        | none => Except.error .indexError
        | some n0 =>
          let v2b := objSet v2a "minecraft" n0
          if nicks.length ≥ 2 then
            match objGet v2b "minecraft_previous" with
            | some (.arr mp) => pure (objSet v2b "minecraft_previous" (.arr (mp ++ nicks.tail)))
            | _ => Except.error .typeError
          else pure v2b
      | _ => Except.error .typeError
    else pure v2a
  else if key == "name" then .ok (objSet v2 "name" value)
  else if key == "options" then .ok (objSet v2 "options" value)
  else if key == "statusHistory" then statusHistBranch v2 value now
  else if key == "twitter" then do
    let hasU ← pyContains value "username"
    if hasU then do
      let u ← pyIndex value "username"
      pure (objSet v2 "twitter" u)
    else pure v2
  else if key == "website" then .ok (objSet v2 "website" value)
  else if key == "wiki" then
    match value with
    | .str s =>
      if s.startsWith "User:" then .ok (objSet v2 "wiki" (.str (s.drop 5)))
      else .ok v2
    | _ => .error .typeError
  else .ok v2

/-- `PersonConverter._convert_v3_v2` from `src/people/people.py`
(lines 421-522).  `uid` is the record id, `now` embeds
`datetime.datetime.utcnow()` (used only as the `SORT_DATE` fallback when no
status event has a date).  The trailing step deletes an empty
`minecraft_previous`. -/
def person_convert_v3_v2 (uid : String) (v3 : JObj) (now : PyDate) : Except PyErr JObj := do
  let v2 ← v3.foldlM (convStep3to2 now) [("id", .str uid), ("minecraft_previous", .arr [])]
  match objGet v2 "minecraft_previous" with
  | some (.arr mp) => pure (if mp.isEmpty then objDel v2 "minecraft_previous" else v2)
  | _ => .error .typeError

/-- The round trip v2 → v3 → v2 of a document, projected onto the current
minecraft nick. -/
def roundTripMinecraft (d : JObj) (now : PyDate) : Option JVal :=
  match (person_convert_v2_v3 d).1 with
  | .ok v3 =>
    match person_convert_v3_v2 "alice" v3 now with
    | .ok v2 => objGet v2 "minecraft"
    | .error _ => none
  | .error _ => none

/-- C2: the v3 → v2 converter uses the FIRST element of `minecraft.nicks`
as the current v2 `minecraft` and the LATER elements as
`minecraft_previous` (lines 449-451: `v2['minecraft'] = value['nicks'][0]`,
`v2['minecraft_previous'].extend(value['nicks'][1:])`), contradicting both
the claim and the code's own v2 → v3 direction (line 358:
`minecraft_previous + [minecraft]`, current nick last).  Consequently the
round trip v2 → v3 → v2 turns current nick `new` (previous `old`) into
current nick `old`. -/
theorem C2_theorem :
    person_convert_v3_v2 "alice"
        [("minecraft", .obj [("nicks", .arr [.str "old", .str "new"])])] cutoffDate
      = .ok [("id", .str "alice"), ("minecraft_previous", .arr [.str "new"]),
             ("minecraft", .str "old")]
    ∧ roundTripMinecraft
        [("id", .str "alice"), ("minecraft", .str "new"),
         ("minecraft_previous", .arr [.str "old"])] cutoffDate = some (.str "old") := by
  exact ⟨rfl, rfl⟩

/-- Modelled from the claim's words (refinement target for C6): the v2
`status` that the spec's reduction table assigns to the last status event:
founding/invited/later/former map directly, `disabled` and `guest`
collapse to `former`, a `later` dated strictly after the cutoff becomes
`postfreeze`, and a `former` with reason `vetoed` becomes `vetoed`.
`none` means the claim assigns no status (statuses outside the table). -/
def specStatusFromLastEvent (ev : JObj) : Option String :=
  match dictGetOpt ev "status" with
  | some (.str s) =>
    if s == "former" || s == "founding" || s == "invited" || s == "later" then
      if s == "later" then
        match dictGetOpt ev "date" with
        | some (.str ds) =>
          match parseIso ds with
          | some pd => if pdLt cutoffDate pd then some "postfreeze" else some "later"
          | none => some "later"
        | some _ => some "later"
        | none => some "later"
      else if s == "former" then
        match dictGetOpt ev "reason" with
        | some r => if r.eqStr "vetoed" then some "vetoed" else some "former"
        | none => some "former"
      else some s
    else if s == "disabled" then some "former"
    else if s == "guest" then some "former"
    else none
  | _ => none

theorem eqStr_eq {v : JVal} {s : String} (h : v.eqStr s = true) : v = .str s := by
  cases v <;> simp_all [JVal.eqStr]

theorem exceptBind_ok {ε α β : Type} {x : Except ε α} {f : α → Except ε β} {b : β}
    (h : x >>= f = .ok b) : ∃ a, x = .ok a ∧ f a = .ok b := by
  cases x with
  | ok a => exact ⟨a, rfl, h⟩
  | error e => simp [Bind.bind, Except.bind] at h

theorem foldlM_except_append {α σ : Type} {ε : Type} (f : σ → α → Except ε σ)
    (l1 l2 : List α) (init : σ) :
    (l1 ++ l2).foldlM f init = (l1.foldlM f init) >>= fun s => l2.foldlM f s := by
  induction l1 generalizing init with
  | nil => simp [List.foldlM]
  | cons hd tl ih =>
    simp only [List.cons_append, List.foldlM]
    cases hfa : f init hd with
    | ok s1 =>
      simp only [Bind.bind, Except.bind, hfa]
      exact ih s1
    | error e => simp [Bind.bind, Except.bind, hfa]


theorem applyCurStatus_status (v2 cur v2' : JObj) (hok : applyCurStatus v2 cur = .ok v2') :
    objGet v2' "status" =
      (match specStatusFromLastEvent cur with
       | some s => some (.str s)
       | none => objGet v2 "status") := by
  unfold applyCurStatus at hok
  unfold specStatusFromLastEvent
  rcases hst : dictGetOpt cur "status" with _ | sv
  · rw [hst] at hok
    simp [jvalOptInStrs] at hok
    subst hok
    rfl
  · rw [hst] at hok
    cases sv with
    | str s =>
      simp only [jvalOptInStrs, List.any_cons, List.any_nil, JVal.eqStr, Bool.or_false] at hok
      by_cases hf : s = "former"
      · subst hf
        rcases hre : dictGetOpt cur "reason" with _ | r
        · rw [hre] at hok
          simp [pure, Except.pure, Bind.bind, Except.bind] at hok
          subst hok
          simp [hre, objGet_objSet_self]
        · rw [hre] at hok
          cases r with
          | str rs =>
            by_cases hrv : rs = "vetoed"
            · subst hrv
              simp [pure, Except.pure, Bind.bind, Except.bind, JVal.eqStr] at hok
              subst hok
              simp [hre, JVal.eqStr, objGet_objSet_self]
            · simp [pure, Except.pure, Bind.bind, Except.bind, JVal.eqStr, hrv] at hok
              subst hok
              simp [hre, JVal.eqStr, hrv, objGet_objSet_self]
          | null =>
            simp [pure, Except.pure, Bind.bind, Except.bind, JVal.eqStr] at hok
            subst hok
            simp [hre, JVal.eqStr, objGet_objSet_self]
          | bool b =>
            simp [pure, Except.pure, Bind.bind, Except.bind, JVal.eqStr] at hok
            subst hok
            simp [hre, JVal.eqStr, objGet_objSet_self]
          | num n =>
            simp [pure, Except.pure, Bind.bind, Except.bind, JVal.eqStr] at hok
            subst hok
            simp [hre, JVal.eqStr, objGet_objSet_self]
          | arr a =>
            simp [pure, Except.pure, Bind.bind, Except.bind, JVal.eqStr] at hok
            subst hok
            simp [hre, JVal.eqStr, objGet_objSet_self]
          | obj o =>
            simp [pure, Except.pure, Bind.bind, Except.bind, JVal.eqStr] at hok
            subst hok
            simp [hre, JVal.eqStr, objGet_objSet_self]
          | pydate t =>
            simp [pure, Except.pure, Bind.bind, Except.bind, JVal.eqStr] at hok
            subst hok
            simp [hre, JVal.eqStr, objGet_objSet_self]
      · by_cases hl : s = "later"
        · subst hl
          rcases hd : dictGetOpt cur "date" with _ | dv
          · rw [hd] at hok
            simp [pure, Except.pure, Bind.bind, Except.bind] at hok
            subst hok
            simp [hd, objGet_objSet_self]
          · rw [hd] at hok
            cases dv with
            | str ds =>
              rcases hp : parseIso ds with _ | pd
              · simp [Bind.bind, Except.bind, hp] at hok
              · by_cases hc : pdLt cutoffDate pd
                · simp [pure, Except.pure, Bind.bind, Except.bind, hp, hc] at hok
                  subst hok
                  simp [hd, hp, hc, objGet_objSet_self]
                · simp [pure, Except.pure, Bind.bind, Except.bind, hp, hc] at hok
                  subst hok
                  simp [hd, hp, hc, objGet_objSet_self]
            | null => simp [Bind.bind, Except.bind] at hok
            | bool b => simp [Bind.bind, Except.bind] at hok
            | num n => simp [Bind.bind, Except.bind] at hok
            | arr a => simp [Bind.bind, Except.bind] at hok
            | obj o => simp [Bind.bind, Except.bind] at hok
            | pydate t => simp [Bind.bind, Except.bind] at hok
        · by_cases hfo : s = "founding"
          · subst hfo
            simp [pure, Except.pure, Bind.bind, Except.bind] at hok
            subst hok
            simp [objGet_objSet_self]
          · by_cases hi : s = "invited"
            · subst hi
              simp [pure, Except.pure, Bind.bind, Except.bind] at hok
              subst hok
              simp [objGet_objSet_self]
            · by_cases hdis : s = "disabled"
              · subst hdis
                simp [pure, Except.pure, Bind.bind, Except.bind] at hok
                subst hok
                simp [objGet_objSet_self]
              · by_cases hg : s = "guest"
                · subst hg
                  simp [pure, Except.pure, Bind.bind, Except.bind] at hok
                  subst hok
                  simp [objGet_objSet_self]
                · simp [pure, Except.pure, Bind.bind, Except.bind, hf, hl, hfo, hi, hdis, hg] at hok
                  subst hok
                  simp [hf, hl, hfo, hi, hdis, hg]
    | null =>
      simp [jvalOptInStrs, JVal.eqStr] at hok
      subst hok
      rfl
    | bool b =>
      simp [jvalOptInStrs, JVal.eqStr] at hok
      subst hok
      rfl
    | num n =>
      simp [jvalOptInStrs, JVal.eqStr] at hok
      subst hok
      rfl
    | arr a =>
      simp [jvalOptInStrs, JVal.eqStr] at hok
      subst hok
      rfl
    | obj o =>
      simp [jvalOptInStrs, JVal.eqStr] at hok
      subst hok
      rfl
    | pydate t =>
      simp [jvalOptInStrs, JVal.eqStr] at hok
      subst hok
      rfl

theorem foldlM_ok_preserve {α σ : Type} (f : σ → α → Except PyErr σ) (P : σ → σ → Prop)
    (htrans : ∀ a b c, P a b → P b c → P a c)
    (hrefl : ∀ s, P s s)
    (hstep : ∀ s a s', f s a = .ok s' → P s s') :
    ∀ (l : List α) (s s' : σ), l.foldlM f s = .ok s' → P s s' := by
  intro l
  induction l with
  | nil =>
    intro s s' h
    simp [List.foldlM, pure, Except.pure] at h
    subst h
    exact hrefl s
  | cons hd tl ih =>
    intro s s' h
    simp only [List.foldlM] at h
    obtain ⟨s1, h1, h2⟩ := exceptBind_ok h
    exact htrans _ _ _ (hstep s hd s1 h1) (ih s1 s' h2)

theorem datesStep_status (st : Option PyDate × JObj) (item : JVal) (st' : Option PyDate × JObj)
    (hok : datesStep st item = .ok st') :
    objGet st'.2 "status" = objGet st.2 "status" := by
  unfold datesStep at hok
  simp only [Bind.bind, Except.bind, pure, Except.pure] at hok
  repeat' split at hok
  all_goals try exact Except.noConfusion hok
  all_goals
    injection hok with h2
    subst h2
    simp [objGet_objSet_ne]

theorem baseStep_status (acc : JObj) (base : JVal) (acc' : JObj)
    (hok : baseStep acc base = .ok acc') :
    objGet acc' "status" = objGet acc "status" := by
  unfold baseStep at hok
  simp only [Bind.bind, Except.bind, pure, Except.pure] at hok
  repeat' split at hok
  all_goals try exact Except.noConfusion hok
  all_goals
    injection hok with h2
    subst h2
    simp [objGet_objSet_ne]

theorem statusHistBranch_status (v2 : JObj) (evs' : List JVal) (ev : JObj) (now : PyDate)
    (v2' : JObj)
    (hok : statusHistBranch v2 (.arr (evs' ++ [.obj ev])) now = .ok v2') :
    objGet v2' "status" =
      (match specStatusFromLastEvent ev with
       | some s => some (.str s)
       | none => objGet v2 "status") := by
  simp only [statusHistBranch, List.getLast?_concat, Bind.bind, Except.bind, pure,
    Except.pure] at hok
  rcases hac : applyCurStatus v2 ev with e | v2a
  · simp only [hac] at hok
    exact Except.noConfusion hok
  · simp only [hac] at hok
    rcases hfold : (evs' ++ [JVal.obj ev]).foldlM datesStep (none, v2a) with e | stf
    · simp only [hfold] at hok
      exact Except.noConfusion hok
    · simp only [hfold] at hok
      injection hok with h2
      subst h2
      rw [objGet_objSet_ne _ _ _ _ (by simp)]
      have hpres := foldlM_ok_preserve datesStep
        (fun a b => objGet b.2 "status" = objGet a.2 "status")
        (fun a b c h1 h2 => h2.trans h1) (fun s => rfl)
        (fun s a s' h => datesStep_status s a s' h)
        (evs' ++ [JVal.obj ev]) (none, v2a) stf hfold
      rw [hpres]
      exact applyCurStatus_status v2 ev v2a hac

set_option maxHeartbeats 1600000 in
theorem convStep_status (now : PyDate) (v2 : JObj) (kv : String × JVal) (v2' : JObj)
    (hne : kv.1 ≠ "statusHistory")
    (hok : convStep3to2 now v2 kv = .ok v2') :
    objGet v2' "status" = objGet v2 "status" := by
  obtain ⟨key, value⟩ := kv
  simp only at hne
  by_cases h1 : key = "alt"
  · subst h1
    simp [convStep3to2] at hok
    repeat' split at hok
    all_goals try exact Except.noConfusion hok
    all_goals try (injection hok with h2; subst h2; simp [objGet_objSet_ne])
  · by_cases h2 : key = "base"
    · subst h2
      simp [convStep3to2, h1] at hok
      repeat' split at hok
      all_goals try exact Except.noConfusion hok
      all_goals try
        exact foldlM_ok_preserve baseStep (fun a b => objGet b "status" = objGet a "status")
          (fun a b c hx hy => hy.trans hx) (fun s => rfl)
          (fun s a s' h => baseStep_status s a s' h) _ v2 v2' hok
    · by_cases h3 : key = "description"
      · subst h3
        simp [convStep3to2] at hok
        subst hok
        simp [objGet_objSet_ne]
      · by_cases h4 : key = "favColor"
        · subst h4
          simp [convStep3to2] at hok
          subst hok
          simp [objGet_objSet_ne]
        · by_cases h5 : key = "gravatar"
          · subst h5
            simp [convStep3to2] at hok
            subst hok
            simp [objGet_objSet_ne]
          · by_cases h6 : key = "minecraft"
            · subst h6
              simp [convStep3to2, Bind.bind, Except.bind, pure, Except.pure] at hok
              repeat' split at hok
              all_goals try exact Except.noConfusion hok
              all_goals try (injection hok with h2; subst h2; simp [objGet_objSet_ne])
            · by_cases h7 : key = "name"
              · subst h7
                simp [convStep3to2] at hok
                subst hok
                simp [objGet_objSet_ne]
              · by_cases h8 : key = "options"
                · subst h8
                  simp [convStep3to2] at hok
                  subst hok
                  simp [objGet_objSet_ne]
                · by_cases h9 : key = "statusHistory"
                  · exact absurd h9 hne
                  · by_cases h10 : key = "twitter"
                    · subst h10
                      simp [convStep3to2, Bind.bind, Except.bind, pure, Except.pure] at hok
                      repeat' split at hok
                      all_goals try exact Except.noConfusion hok
                      all_goals try (injection hok with h2; subst h2; simp [objGet_objSet_ne])
                    · by_cases h11 : key = "website"
                      · subst h11
                        simp [convStep3to2] at hok
                        subst hok
                        simp [objGet_objSet_ne]
                      · by_cases h12 : key = "wiki"
                        · subst h12
                          simp [convStep3to2] at hok
                          repeat' split at hok
                          all_goals try exact Except.noConfusion hok
                          all_goals try (injection hok with h2; subst h2; simp [objGet_objSet_ne])
                        · simp [convStep3to2, h1, h2, h3, h4, h5, h6, h7, h9, h10, h11, h12,
                            beq_eq_false_iff_ne.mpr h8] at hok
                          subst hok
                          rfl

theorem convFold_status (now : PyDate) (l : List (String × JVal)) (v2 v2' : JObj)
    (hne : ∀ kv ∈ l, kv.1 ≠ "statusHistory")
    (hok : l.foldlM (convStep3to2 now) v2 = .ok v2') :
    objGet v2' "status" = objGet v2 "status" := by
  induction l generalizing v2 with
  | nil =>
    simp [List.foldlM, pure, Except.pure] at hok
    subst hok
    rfl
  | cons hd tl ih =>
    simp only [List.foldlM] at hok
    obtain ⟨s1, h1, h2⟩ := exceptBind_ok hok
    exact (ih s1 (fun kv hm => hne kv (List.mem_cons_of_mem hd hm)) h2).trans
      (convStep_status now v2 hd s1 (hne hd (List.mem_cons_self hd tl)) h1)

/-- C6: for every v3 document whose `statusHistory` is a non-empty list of
events (placed anywhere among the document's keys), a successful v3 → v2
conversion derives the single v2 `status` from the last event only,
exactly as the spec's table says (`specStatusFromLastEvent`): founding,
invited, later and former map directly; disabled and guest become
`former`; a `later` dated strictly after 2013-11-02T17:33:45Z becomes
`postfreeze`; a `former` with reason `vetoed` becomes `vetoed`. -/
theorem C6_theorem (uid : String) (pre post : JObj) (evs' : List JVal) (ev : JObj)
    (now : PyDate) (v2 : JObj)
    (hpre : ∀ kv ∈ pre, kv.1 ≠ "statusHistory")
    (hpost : ∀ kv ∈ post, kv.1 ≠ "statusHistory")
    (hok : person_convert_v3_v2 uid
      (pre ++ ("statusHistory", .arr (evs' ++ [.obj ev])) :: post) now = .ok v2) :
    objGet v2 "status" = (specStatusFromLastEvent ev).map JVal.str := by
  unfold person_convert_v3_v2 at hok
  simp only [Bind.bind, Except.bind] at hok
  rcases hfold : (pre ++ ("statusHistory", JVal.arr (evs' ++ [JVal.obj ev])) :: post).foldlM
      (convStep3to2 now) [("id", JVal.str uid), ("minecraft_previous", JVal.arr [])] with e | v2f
  · simp only [hfold] at hok
    exact Except.noConfusion hok
  · simp only [hfold] at hok
    rcases hmp : objGet v2f "minecraft_previous" with _ | mv
    · simp only [hmp] at hok
      exact Except.noConfusion hok
    · cases mv with
      | arr mp =>
        simp only [hmp] at hok
        injection hok with h2
        subst h2
        have hsame : objGet (if mp.isEmpty then objDel v2f "minecraft_previous" else v2f)
            "status" = objGet v2f "status" := by
          split
          · exact objGet_objDel_ne v2f "minecraft_previous" "status" (by simp)
          · rfl
        rw [hsame]
        rw [foldlM_except_append] at hfold
        obtain ⟨s1, hpre_ok, hrest⟩ := exceptBind_ok hfold
        simp only [List.foldlM] at hrest
        obtain ⟨s2, hstep, hpost_ok⟩ := exceptBind_ok hrest
        have hsb : statusHistBranch s1 (JVal.arr (evs' ++ [JVal.obj ev])) now = .ok s2 := by
          simpa [convStep3to2] using hstep
        have hst2 := statusHistBranch_status s1 evs' ev now s2 hsb
        have hs1 : objGet s1 "status" = none :=
          (convFold_status now pre
            [("id", JVal.str uid), ("minecraft_previous", JVal.arr [])] s1 hpre hpre_ok).trans rfl
        have hv2f := convFold_status now post s2 v2f hpost hpost_ok
        rw [hv2f, hst2, hs1]
        cases specStatusFromLastEvent ev <;> simp
      | null =>
        simp only [hmp] at hok
        exact Except.noConfusion hok
      | bool b =>
        simp only [hmp] at hok
        exact Except.noConfusion hok
      | num n =>
        simp only [hmp] at hok
        exact Except.noConfusion hok
      | str s =>
        simp only [hmp] at hok
        exact Except.noConfusion hok
      | obj o =>
        simp only [hmp] at hok
        exact Except.noConfusion hok
      | pydate t =>
        simp only [hmp] at hok
        exact Except.noConfusion hok

/-- The spec's C6 example event: a last status event `later` dated
2014-01-01, after the postfreeze cutoff. -/
def c6docEv : JObj := [("status", JVal.str "later"), ("date", JVal.str "2014-01-01T00:00:00Z")]

/-- The v2 document the code produces for the record
`{"statusHistory": [c6docEv]}` (id `x`, clock fixed at the cutoff). -/
def c6conv : JObj :=
  [("id", JVal.str "x"), ("status", JVal.str "postfreeze"),
   ("join_date", JVal.str "2014-01-01T00:00:00Z"),
   ("SORT_DATE", JVal.pydate ⟨2014, 1, 1, 0, 0, 0⟩)]

/-- Witness for C6: the spec's example (last event `later` dated
2014-01-01T00:00:00Z) converts to v2 status `postfreeze`. -/
theorem C6_witness :
    objGet c6conv "status" = some (JVal.str "postfreeze") ∧
    specStatusFromLastEvent c6docEv = some "postfreeze" := by
  constructor
  · have h := C6_theorem "x" [] [] [] c6docEv cutoffDate c6conv
      (by intro kv hm; cases hm) (by intro kv hm; cases hm) rfl
    rw [h]
    rfl
  · rfl

/-- The `people` table as a mapping wmbid ↦ data, in row order
(`Store` rows behave like `JObj` entries, so the dict operations are
reused for row lookup and `UPDATE ... WHERE wmbid = ...`). -/
abbrev Store := List (String × JVal)

/-- `PeopleDB.people_list` (lines 221-226): `SELECT wmbid FROM people`;
when the table is empty `fetchall` returns `[]`, the `if result:` guard
fails and the method implicitly returns `None`. -/
def people_list (db : Store) : Option (List String) :=
  if db.isEmpty then none else some (db.map Prod.fst)

/-- Split a dpath key on `'.'` (`dpath`'s `separator='.'`);
like Python `str.split`, never returns the empty list. -/
def splitDots : List Char → List (List Char)
  | [] => [[]]
  | c :: rest =>
    if c = '.' then [] :: splitDots rest
    else
      match splitDots rest with
      | seg :: segs => (c :: seg) :: segs
      | [] => [[c]]

/-- The segments of a dotted dpath key. -/
def pathSegs (s : String) : List String :=
  (splitDots s.toList).map (fun l => String.mk l)

theorem splitDots_ne_nil (cs : List Char) : splitDots cs ≠ [] := by
  cases cs with
  | nil => simp [splitDots]
  | cons c rest =>
    unfold splitDots
    split
    · simp
    · split <;> simp

theorem pathSegs_ne_nil (s : String) : pathSegs s ≠ [] := by
  unfold pathSegs
  intro h
  exact splitDots_ne_nil s.toList (List.map_eq_nil_iff.mp h)

/-- A dpath segment used as a sequence index (`int(segment)`): decimal
digits only. -/
def segIndex (s : String) : Option Nat :=
  let cs := s.toList
  if cs ≠ [] ∧ cs.all Char.isDigit then
    some (cs.foldl (fun a c => a * 10 + (c.toNat - 48)) 0)
  else none

/-- `dpath.util.get(obj, key, separator='.')` for a glob-free path:
walk the segments, matching dict keys by name and list positions by
index; `none` means zero matches (dpath then raises `KeyError`). -/
def dpathGet : JVal → List String → Option JVal
  | v, [] => some v
  | .obj o, s :: rest =>
    match objGet o s with
    | some v => dpathGet v rest
    | none => none
  | .arr a, s :: rest =>
    match segIndex s with
    | some i =>
      match a.get? i with
      | some v => dpathGet v rest
      | none => none
    | none => none
  | _, _ :: _ => none

/-- `dpath.util.delete(obj, key, separator='.')` for a glob-free path,
returning the modified document, or `none` when nothing matched — in
which case dpath raises `PathNotFound` ("Could not find {glob} to
delete it", per its documentation). -/
def dpathDelete : JVal → List String → Option JVal
  | _, [] => none
  | .obj o, [s] => if containsKey o s then some (.obj (objDel o s)) else none
  | .obj o, s :: s2 :: rest =>
    match objGet o s with
    | some v =>
      match dpathDelete v (s2 :: rest) with
      | some v' => some (.obj (objSet o s v'))
      | none => none
    | none => none
  | .arr a, [s] =>
    match segIndex s with
    | some i => if i < a.length then some (.arr (a.eraseIdx i)) else none
    | none => none
  | .arr a, s :: s2 :: rest =>
    match segIndex s with
    | some i =>
      match a.get? i with
      | some v =>
        match dpathDelete v (s2 :: rest) with
        | some v' => some (.arr (a.set i v'))
        | none => none
      | none => none
    | none => none
  | _, _ :: _ => none

theorem dpathDelete_none_of_get_none (p : List String) (v : JVal)
    (hne : p ≠ []) (h : dpathGet v p = none) : dpathDelete v p = none := by
  induction p generalizing v with
  | nil => exact absurd rfl hne
  | cons s rest ih =>
    cases v with
    | obj o =>
      cases rest with
      | nil =>
        simp only [dpathGet] at h
        rcases hg : objGet o s with _ | w
        · simp only [dpathDelete, containsKey_eq_isSome, hg, Option.isSome_none,
            Bool.false_eq_true, if_neg]
          simp [containsKey_eq_isSome, hg]
        · rw [hg] at h
          simp [dpathGet] at h
      | cons s2 r' =>
        simp only [dpathGet] at h
        rcases hg : objGet o s with _ | w
        · simp [dpathDelete, hg]
        · rw [hg] at h
          simp only [dpathDelete, hg]
          rw [ih w (by simp) h]
    | arr a =>
      cases rest with
      | nil =>
        simp only [dpathGet] at h
        rcases hi : segIndex s with _ | i
        · simp [dpathDelete, hi]
        · simp only [hi] at h
          rcases hg : a.get? i with _ | w
          · have hlen : a.length ≤ i := List.get?_eq_none.mp hg
            simp only [dpathDelete, hi]
            rw [if_neg (by omega)]
          · simp only [hg, dpathGet] at h
            exact Option.noConfusion h
      | cons s2 r' =>
        simp only [dpathGet] at h
        rcases hi : segIndex s with _ | i
        · simp [dpathDelete, hi]
        · simp only [hi] at h
          rcases hg : a.get? i with _ | w
          · have hg' : a[i]? = none := by
              rw [← List.get?_eq_getElem?]
              exact hg
            simp [dpathDelete, hi, hg, hg']
          · simp only [hg] at h
            simp only [dpathDelete, hi, hg]
            rw [ih w (by simp) h]
    | null => rfl
    | bool b => rfl
    | num n => rfl
    | str s' => rfl
    | pydate t => rfl

/-- `PeopleDB.person_get_key` (lines 126-134): select the person's row
(`KeyError` when absent), then `dpath.util.get(obj, key, separator='.')`
(`KeyError` when the path matches nothing). -/
def person_get_key (db : Store) (person key : String) : Except PyErr JVal :=
  match objGet db person with
  | none => .error (.keyError person)
  | some obj =>
    match dpathGet obj (pathSegs key) with
    | some v => .ok v
    | none => .error (.keyError key)

/-- `PeopleDB.person_del_key` (lines 161-168) through `person_modify_data`
(lines 136-150): select the row `FOR UPDATE` (`KeyError` when the person
is absent), apply `dpath.util.delete` — which raises `PathNotFound` when
the path matches nothing — and write the result back.  An exception
aborts the transaction, leaving the store unchanged. -/
def person_del_key (db : Store) (person key : String) : Except PyErr Store :=
  match objGet db person with
  | none => .error (.keyError person)
  | some obj =>
    match dpathDelete obj (pathSegs key) with
    | some obj' => .ok (objSet db person obj')
    | none => .error (.pathNotFound key)

/-- C3 counterexample: deleting the absent path `favColor` of an existing
record is NOT a silent no-op: `dpath.util.delete` finds nothing to delete
and raises `PathNotFound` (which the CLI's `except KeyError` handler does
not even catch). -/
theorem C3_counterexample :
    person_del_key [("alice", .obj [("statusHistory", .arr [])])] "alice" "favColor" =
      .error (.pathNotFound "favColor") := rfl

/-- C3 (amended): for every existing record and every path that is absent
in its document (`dpathGet` finds nothing), `person_del_key` raises
`PathNotFound` instead of succeeding; the store is unchanged (the
transaction rolls back), so a subsequent `getAtPath` still reports the
same absence — but the operation is an error, not a no-op. -/
theorem C3_theorem (db : Store) (uid key : String) (pdoc : JVal)
    (hget : objGet db uid = some pdoc)
    (habs : dpathGet pdoc (pathSegs key) = none) :
    person_del_key db uid key = .error (.pathNotFound key) := by
  unfold person_del_key
  simp only [hget]
  rw [dpathDelete_none_of_get_none (pathSegs key) pdoc (pathSegs_ne_nil key) habs]

/-- Witness for C3: the concrete record and path of the counterexample
satisfy the amended theorem's hypotheses. -/
theorem C3_witness :
    objGet [("alice", JVal.obj [("statusHistory", JVal.arr [])])] "alice" =
      some (JVal.obj [("statusHistory", JVal.arr [])]) ∧
    person_del_key [("alice", JVal.obj [("statusHistory", JVal.arr [])])] "alice" "favColor" =
      .error (.pathNotFound "favColor") :=
  ⟨rfl, C3_theorem [("alice", JVal.obj [("statusHistory", JVal.arr [])])] "alice" "favColor"
    (JVal.obj [("statusHistory", JVal.arr [])]) rfl rfl⟩

/-- The status values accepted by `person_append_status` (line 171). -/
def allowed_statuses : List String :=
  ["disabled", "former", "founding", "guest", "invited", "later"]

/-- The reason values accepted by `person_append_status` (line 172). -/
def allowed_reasons : List String :=
  ["coc", "guest", "inactivity", "request", "vetoed"]

/-- Python truthiness of the optional `reason` argument (`None` and the
empty string are falsy). -/
def reasonTruthy : Option String → Bool
  | none => false
  | some s => !(s == "")

/-- `reason in allowed_reasons` (with `None in [...]` false). -/
def reasonAllowed : Option String → Bool
  | none => false
  | some r => allowed_reasons.contains r

/-- The dict literal `{'by': by, 'status': status, 'date': date}` of
lines 195-199, with the `reason` key added when `reason` is truthy
(lines 200-201). -/
def statusItem (status by_ date : String) (reason : Option String) : JObj :=
  let base := [("by", JVal.str by_), ("status", JVal.str status), ("date", JVal.str date)]
  match reason with
  | some r => if r == "" then base else base ++ [("reason", JVal.str r)]
  | none => base

/-- The part of `person_append_status` after the status/reason argument
checks (lines 185-205): the `by` roster check, the last-history-entry
read (`history[-1]` — an `IndexError` on an empty history), the
no-op-transition check, and the append through `person_modify_data`.
`history[-1]` on a non-list and `[...]['status']` on a non-dict are
`TypeError`. -/
def person_append_status_checked (db : Store) (uid status by_ date : String)
    (reason : Option String) : Except PyErr Store :=
  match people_list db with
  | none => .error .typeError
  | some ppl =>
    if ¬ ppl.contains by_ then .error (.valueError "badBy")
    else
      match person_get_key db uid "statusHistory" with
      | .error e => .error e
      | .ok history =>
        match history with
        | .arr evs =>
          match evs.getLast? with
          | none => .error .indexError
          | some lastEv =>
            match lastEv with
            | .obj lo =>
              match objGet lo "status" with
              | none => .error (.keyError "status")
              | some sv =>
                if sv.eqStr status then .error (.valueError "sameStatus")
                else
                  match objGet db uid with
                  | none => .error (.keyError uid)
                  | some obj =>
                    match obj with
                    | .obj o =>
                      match objGet o "statusHistory" with
                      | some (.arr evs2) =>
                        .ok (objSet db uid (.obj (objSet o "statusHistory"
                          (.arr (evs2 ++ [.obj (statusItem status by_ date reason)])))))
                      | some _ => .error .typeError
                      | none => .error (.keyError "statusHistory")
                    | _ => .error .typeError
            | _ => .error .typeError
        | _ => .error .typeError

/-- `PeopleDB.person_append_status` (lines 170-205).  `date` is the
ISO-rendered UTC timestamp (for an already-UTC aware datetime the
tz-defaulting of lines 182-183 changes nothing); `by_` is the source's
`by` parameter.  The `valueError` tags stand for the source's messages:
`badStatus` (line 174), `reasonRequired` (line 178), `reasonForbidden`
(line 180), `badBy` (line 187), `sameStatus` (line 191). -/
def person_append_status (db : Store) (uid status by_ date : String)
    (reason : Option String) : Except PyErr Store :=
  if ¬ allowed_statuses.contains status then .error (.valueError "badStatus")
  else if status == "former" || status == "disabled" then
    if !reasonTruthy reason || !reasonAllowed reason then .error (.valueError "reasonRequired")
    else person_append_status_checked db uid status by_ date reason
  else if reasonTruthy reason then .error (.valueError "reasonForbidden")
  else person_append_status_checked db uid status by_ date reason

/-- C5: on a record with a non-empty, well-formed `statusHistory`,
`person_append_status` (1) fails with the InvalidArgument `ValueError`
"must have a reason" when the status is `former` or `disabled` and the
supplied reason is missing/falsy or not in the allowed set, (2) fails
with the InvalidArgument `ValueError` "must not have a reason" when a
truthy reason accompanies any other allowed status, (3) fails with the
InvalidState `ValueError` "same as the previous status" when the new
status equals the last event's status, and (4) otherwise (valid
status/reason combination, `by` a known id, new status differing from
the last) appends exactly one event — the record's `statusHistory`
becomes the old list plus the single new item, other keys and other
records untouched.  In every failure case no store update is executed
(the error is raised before `person_modify_data`). -/
theorem C5_theorem (db : Store) (uid status by_ date : String) (reason : Option String)
    (o : JObj) (evs : List JVal) (lastO : JObj) (lastS : String) (ppl : List String)
    (hppl : people_list db = some ppl) (hby : ppl.contains by_ = true)
    (hrow : objGet db uid = some (.obj o))
    (hhist : objGet o "statusHistory" = some (.arr evs))
    (hlast : evs.getLast? = some (.obj lastO))
    (hlastS : objGet lastO "status" = some (.str lastS)) :
    ((status = "former" ∨ status = "disabled") →
      (reasonTruthy reason = false ∨ reasonAllowed reason = false) →
      person_append_status db uid status by_ date reason = .error (.valueError "reasonRequired"))
    ∧ (allowed_statuses.contains status = true → status ≠ "former" → status ≠ "disabled" →
      reasonTruthy reason = true →
      person_append_status db uid status by_ date reason = .error (.valueError "reasonForbidden"))
    ∧ (((status = "former" ∨ status = "disabled") ∧ reasonTruthy reason = true ∧
          reasonAllowed reason = true
        ∨ allowed_statuses.contains status = true ∧ status ≠ "former" ∧ status ≠ "disabled" ∧
          reasonTruthy reason = false) →
      lastS = status →
      person_append_status db uid status by_ date reason = .error (.valueError "sameStatus"))
    ∧ (((status = "former" ∨ status = "disabled") ∧ reasonTruthy reason = true ∧
          reasonAllowed reason = true
        ∨ allowed_statuses.contains status = true ∧ status ≠ "former" ∧ status ≠ "disabled" ∧
          reasonTruthy reason = false) →
      lastS ≠ status →
      person_append_status db uid status by_ date reason =
        .ok (objSet db uid (.obj (objSet o "statusHistory"
          (.arr (evs ++ [.obj (statusItem status by_ date reason)])))))) := by
  have hps : pathSegs "statusHistory" = ["statusHistory"] := rfl
  have hby' : by_ ∈ ppl := by simpa using hby
  refine ⟨?c1, ?c2, ?c3, ?c4⟩
  case c1 =>
    intro h1 h2
    rcases h1 with h | h <;> subst h <;> rcases h2 with h2 | h2 <;>
      simp [person_append_status, h2,
        allowed_statuses]
  case c2 =>
    intro hstat hf hd hT
    have hstat' : status ∈ allowed_statuses := by simpa using hstat
    simp [person_append_status, hstat', beq_eq_false_iff_ne.mpr hf,
      beq_eq_false_iff_ne.mpr hd, hT]
  case c3 =>
    intro hcombo heq
    have hbeq : (lastS == status) = true := beq_iff_eq.mpr heq
    rcases hcombo with ⟨hfd, hT, hA⟩ | ⟨hstat, hf, hd, hT⟩
    · rcases hfd with h | h <;> subst h <;>
        simp [person_append_status, person_append_status_checked, hT, hA, hppl, hby', hby,
          person_get_key, hrow, hps, dpathGet, hhist, hlast, hlastS, JVal.eqStr, hbeq, heq,
          allowed_statuses]
    · have hstat' : status ∈ allowed_statuses := by simpa using hstat
      simp [person_append_status, hstat', beq_eq_false_iff_ne.mpr hf, beq_eq_false_iff_ne.mpr hd,
        hT, person_append_status_checked, hppl, hby', hby, person_get_key, hrow, hps, dpathGet,
        hhist, hlast, hlastS, JVal.eqStr, hbeq, heq]
  case c4 =>
    intro hcombo hne
    have hne2 : (lastS == status) = false := beq_eq_false_iff_ne.mpr hne
    rcases hcombo with ⟨hfd, hT, hA⟩ | ⟨hstat, hf, hd, hT⟩
    · rcases hfd with h | h <;> subst h <;>
        simp [person_append_status, person_append_status_checked, hT, hA, hppl, hby', hby,
          person_get_key, hrow, hps, dpathGet, hhist, hlast, hlastS, JVal.eqStr, hne2,
          allowed_statuses]
    · have hstat' : status ∈ allowed_statuses := by simpa using hstat
      simp [person_append_status, hstat', beq_eq_false_iff_ne.mpr hf, beq_eq_false_iff_ne.mpr hd,
        hT, person_append_status_checked, hppl, hby', hby, person_get_key, hrow, hps, dpathGet,
        hhist, hlast, hlastS, JVal.eqStr, hne2]

/-- A one-record store: `bob` with a single `later` status event. -/
def db5c : Store := [("bob", JVal.obj [("statusHistory", JVal.arr
  [JVal.obj [("status", JVal.str "later")]])])]

/-- Witness for C5: on `db5c`, appending `former` with reason `request`
succeeds and appends exactly that one event; `former` without a reason,
a reason on `later`, and a repeated `later` all fail with the
corresponding `ValueError`. -/
theorem C5_witness :
    person_append_status db5c "bob" "former" "bob" "2020-01-01T00:00:00Z" (some "request") =
      .ok [("bob", JVal.obj [("statusHistory", JVal.arr
        [JVal.obj [("status", JVal.str "later")],
         JVal.obj [("by", JVal.str "bob"), ("status", JVal.str "former"),
                   ("date", JVal.str "2020-01-01T00:00:00Z"),
                   ("reason", JVal.str "request")]])])]
    ∧ person_append_status db5c "bob" "former" "bob" "2020-01-01T00:00:00Z" none =
      .error (.valueError "reasonRequired")
    ∧ person_append_status db5c "bob" "later" "bob" "2020-01-01T00:00:00Z" (some "request") =
      .error (.valueError "reasonForbidden")
    ∧ person_append_status db5c "bob" "later" "bob" "2020-01-01T00:00:00Z" none =
      .error (.valueError "sameStatus") := by
  refine ⟨?w1, ?w2, ?w3, ?w4⟩
  case w1 =>
    exact (C5_theorem db5c "bob" "former" "bob" "2020-01-01T00:00:00Z" (some "request")
      [("statusHistory", JVal.arr [JVal.obj [("status", JVal.str "later")]])]
      [JVal.obj [("status", JVal.str "later")]]
      [("status", JVal.str "later")] "later" ["bob"]
      rfl rfl rfl rfl rfl rfl).2.2.2
      (Or.inl ⟨Or.inl rfl, rfl, rfl⟩) (by decide)
  case w2 =>
    exact (C5_theorem db5c "bob" "former" "bob" "2020-01-01T00:00:00Z" none
      [("statusHistory", JVal.arr [JVal.obj [("status", JVal.str "later")]])]
      [JVal.obj [("status", JVal.str "later")]]
      [("status", JVal.str "later")] "later" ["bob"]
      rfl rfl rfl rfl rfl rfl).1
      (Or.inl rfl) (Or.inl rfl)
  case w3 =>
    exact (C5_theorem db5c "bob" "later" "bob" "2020-01-01T00:00:00Z" (some "request")
      [("statusHistory", JVal.arr [JVal.obj [("status", JVal.str "later")]])]
      [JVal.obj [("status", JVal.str "later")]]
      [("status", JVal.str "later")] "later" ["bob"]
      rfl rfl rfl rfl rfl rfl).2.1
      rfl (by decide) (by decide) rfl
  case w4 =>
    exact (C5_theorem db5c "bob" "later" "bob" "2020-01-01T00:00:00Z" none
      [("statusHistory", JVal.arr [JVal.obj [("status", JVal.str "later")]])]
      [JVal.obj [("status", JVal.str "later")]]
      [("status", JVal.str "later")] "later" ["bob"]
      rfl rfl rfl rfl rfl rfl).2.2.1
      (Or.inr ⟨rfl, by decide, by decide, rfl⟩) rfl

/-- C10: on a record whose `statusHistory` is the empty list (exactly the
state `person_add_empty` creates), `person_append_status` with arguments
that pass the status/reason argument validation and a known `by` raises
`IndexError` at the `history[-1]` read (line 190) — before appending
anything and without producing any of the documented InvalidArgument /
InvalidState / NotFound errors — so the record created by the add flow
cannot receive its initial status event through this method. -/
theorem C10_theorem (db : Store) (uid status by_ date : String) (reason : Option String)
    (o : JObj) (ppl : List String)
    (hcombo : (status = "former" ∨ status = "disabled") ∧ reasonTruthy reason = true ∧
        reasonAllowed reason = true
      ∨ allowed_statuses.contains status = true ∧ status ≠ "former" ∧ status ≠ "disabled" ∧
        reasonTruthy reason = false)
    (hppl : people_list db = some ppl) (hby : ppl.contains by_ = true)
    (hrow : objGet db uid = some (.obj o))
    (hhist : objGet o "statusHistory" = some (.arr [])) :
    person_append_status db uid status by_ date reason = .error .indexError := by
  have hps : pathSegs "statusHistory" = ["statusHistory"] := rfl
  have hby' : by_ ∈ ppl := by simpa using hby
  rcases hcombo with ⟨hfd, hT, hA⟩ | ⟨hstat, hf, hd, hT⟩
  · rcases hfd with h | h <;> subst h <;>
      simp [person_append_status, person_append_status_checked, hT, hA, hppl, hby', hby,
        person_get_key, hrow, hps, dpathGet, hhist, allowed_statuses]
  · have hstat' : status ∈ allowed_statuses := by simpa using hstat
    simp [person_append_status, hstat', beq_eq_false_iff_ne.mpr hf, beq_eq_false_iff_ne.mpr hd,
      hT, person_append_status_checked, hppl, hby', hby, person_get_key, hrow, hps, dpathGet,
      hhist]

/-- A store holding `bob` (with history) and the freshly added empty
record `alice`, exactly as `person_add_empty` leaves it. -/
def db10c : Store :=
  [("bob", JVal.obj [("statusHistory", JVal.arr [JVal.obj [("status", JVal.str "later")]])]),
   ("alice", JVal.obj [("statusHistory", JVal.arr [])])]

/-- Witness for C10: appending the initial `guest` status to the empty
record `alice` (by the known member `bob`) raises `IndexError`. -/
theorem C10_witness :
    person_append_status db10c "alice" "guest" "bob" "2020-01-01T00:00:00Z" none =
      .error .indexError :=
  C10_theorem db10c "alice" "guest" "bob" "2020-01-01T00:00:00Z" none
    [("statusHistory", JVal.arr [])] ["bob", "alice"]
    (Or.inr ⟨rfl, by decide, by decide, rfl⟩) rfl rfl rfl rfl

/-- `PeopleDB.person_add_empty` (lines 208-215): reject an existing id
(`ValueError`), otherwise insert the row `{"statusHistory": []}`.
(On an empty table `people_list` returns `None` and the `in` test would
be a `TypeError`; the CLI has already ruled that out.) -/
def person_add_empty (db : Store) (uid : String) : Except PyErr Store :=
  match people_list db with
  | none => .error .typeError
  | some ppl =>
    if ppl.contains uid then .error (.valueError "alreadyExists")
    else .ok (db ++ [(uid, .obj [("statusHistory", .arr [])])])

/-- `PeopleDB.person_delete` (lines 217-219): unconditional row delete. -/
def person_delete (db : Store) (uid : String) : Store :=
  db.filter (fun r => r.1 != uid)

/-- Outcome of the CLI `add` command: `cliRejected` = one of the
pre-checks printed an error and exited, `rolledBack` = a `ValueError`
was caught, the record was deleted and the command exited with 1,
`uncaught e` = a non-`ValueError` exception escaped (traceback). -/
inductive AddOutcome where
  | ok
  | cliRejected
  | rolledBack
  | uncaught (e : PyErr)
deriving DecidableEq, Repr

/-- The `add` branch of the CLI main (lines 626-650): only `guest` and
`invited` are accepted, `--by` is required, duplicates are rejected;
then `person_add_empty` followed by `person_append_status` runs inside
`try: ... except ValueError: person_delete(wmbid)` — only a `ValueError`
triggers the compensating delete; any other exception escapes with the
store as it stands. -/
def cli_add (db : Store) (wmbid status by_ date : String) : AddOutcome × Store :=
  if ¬ (status = "guest" ∨ status = "invited") then (.cliRejected, db)
  else if by_ == "" then (.cliRejected, db)
  else
    match people_list db with
    | none => (.uncaught .typeError, db)
    | some ppl =>
      if ppl.contains wmbid then (.cliRejected, db)
      else
        match person_add_empty db wmbid with
        | .error (.valueError _) => (.rolledBack, person_delete db wmbid)
        | .error e => (.uncaught e, db)
        | .ok db1 =>
          match person_append_status db1 wmbid status by_ date none with
          | .ok db2 => (.ok, db2)
          | .error (.valueError _) => (.rolledBack, person_delete db1 wmbid)
          | .error e => (.uncaught e, db1)

/-- The store before the failing `add`: one member `bob`. -/
def c4db : Store :=
  [("bob", JVal.obj [("statusHistory",
    JVal.arr [JVal.obj [("by", JVal.str "bob"), ("status", JVal.str "later"),
                        ("date", JVal.str "2013-01-01T00:00:00Z")]])])]

/-- C4: the create-with-initial-status flow does NOT roll back on every
failure after record creation.  Adding `alice` as `guest` (by the known
member `bob`) creates the empty record and then `person_append_status`
raises `IndexError` (the `history[-1]` read on the empty history), which
the `except ValueError` handler does not catch: the exception escapes and
the store is left holding `alice` with an empty `statusHistory` — the
exact inconsistent state the claim says can never persist.  (Since every
add reaches this `IndexError`, the add flow can never succeed at all.) -/
theorem C4_theorem :
    cli_add c4db "alice" "guest" "bob" "2020-01-01T00:00:00Z" =
      (.uncaught .indexError,
       c4db ++ [("alice", JVal.obj [("statusHistory", JVal.arr [])])]) := rfl

/-- Stable insert: `x` goes in front of the first element strictly
greater than it, i.e. after every element with an equal key — Python's
`list.sort` stability. -/
def insSortIns {α : Type} (lt : α → α → Bool) (x : α) : List α → List α
  | [] => [x]
  | y :: ys => if lt x y then x :: y :: ys else y :: insSortIns lt x ys

/-- Stable ascending sort by repeated stable insert; for a total key
order this yields exactly the list Python's stable `list.sort` does. -/
def stableSort {α : Type} (lt : α → α → Bool) (l : List α) : List α :=
  l.foldl (fun acc x => insSortIns lt x acc) []

theorem insSortIns_perm {α : Type} (lt : α → α → Bool) (x : α) (l : List α) :
    List.Perm (insSortIns lt x l) (x :: l) := by
  induction l with
  | nil => exact List.Perm.refl _
  | cons y ys ih =>
    unfold insSortIns
    split
    · exact List.Perm.refl _
    · exact (ih.cons y).trans (List.Perm.swap x y ys)

theorem stableSort_foldl_perm {α : Type} (lt : α → α → Bool) (l : List α) :
    ∀ acc, List.Perm (l.foldl (fun acc x => insSortIns lt x acc) acc) (acc ++ l) := by
  induction l with
  | nil => intro acc; simp
  | cons x xs ih =>
    intro acc
    simp only [List.foldl_cons]
    refine (ih (insSortIns lt x acc)).trans ?_
    refine (List.Perm.append_right xs (insSortIns_perm lt x acc)).trans ?_
    exact List.perm_middle.symm

theorem stableSort_perm {α : Type} (lt : α → α → Bool) (l : List α) :
    List.Perm (stableSort lt l) l := by
  simpa using stableSort_foldl_perm lt l []

theorem pairwise_insSortIns {α : Type} (f : α → Int) (x : α) (l : List α)
    (hl : l.Pairwise (fun a b => ¬ f b < f a)) :
    (insSortIns (fun a b => decide (f a < f b)) x l).Pairwise (fun a b => ¬ f b < f a) := by
  induction l with
  | nil => simp [insSortIns]
  | cons y ys ih =>
    rcases List.pairwise_cons.mp hl with ⟨hy, hys⟩
    unfold insSortIns
    split
    · next hlt =>
      rw [decide_eq_true_eq] at hlt
      refine List.pairwise_cons.mpr ⟨?_, hl⟩
      intro z hz
      rcases List.mem_cons.mp hz with rfl | hz
      · omega
      · have := hy z hz
        omega
    · next hnlt =>
      rw [decide_eq_true_eq] at hnlt
      refine List.pairwise_cons.mpr ⟨?_, ih hys⟩
      intro z hz
      rcases List.mem_cons.mp ((insSortIns_perm _ x ys).mem_iff.mp hz) with rfl | hz
      · omega
      · exact hy z hz

theorem pairwise_stableSort {α : Type} (f : α → Int) (l : List α) :
    (stableSort (fun a b => decide (f a < f b)) l).Pairwise (fun a b => ¬ f b < f a) := by
  suffices h : ∀ acc, acc.Pairwise (fun a b => ¬ f b < f a) →
      (l.foldl (fun acc x => insSortIns (fun a b => decide (f a < f b)) x acc) acc).Pairwise
        (fun a b => ¬ f b < f a) by
    exact h [] (by simp)
  induction l with
  | nil => intro acc hacc; simpa using hacc
  | cons x xs ih =>
    intro acc hacc
    simp only [List.foldl_cons]
    exact ih _ (pairwise_insSortIns f x acc hacc)

/-- `[f(x) for x in l]` in the `Except` monad (first error wins), used
for the roster loops. -/
def mapME {α β : Type} (f : α → Except PyErr β) : List α → Except PyErr (List β)
  | [] => .ok []
  | x :: xs => do
    let y ← f x
    let ys ← mapME f xs
    pure (y :: ys)

theorem mapME_ok_forall₂ {α β : Type} (f : α → Except PyErr β) (l : List α) (out : List β)
    (h : mapME f l = .ok out) : List.Forall₂ (fun a b => f a = .ok b) l out := by
  induction l generalizing out with
  | nil =>
    simp [mapME] at h
    subst h
    exact List.Forall₂.nil
  | cons x xs ih =>
    simp only [mapME] at h
    obtain ⟨y, hy, h2⟩ := exceptBind_ok h
    obtain ⟨ys, hys, h3⟩ := exceptBind_ok h2
    simp [pure, Except.pure] at h3
    subst h3
    exact List.Forall₂.cons hy (ih ys hys)

theorem forall₂_mem_right {α β : Type} {R : α → β → Prop} {l : List α} {l' : List β}
    (h : List.Forall₂ R l l') (b : β) (hb : b ∈ l') : ∃ a ∈ l, R a b := by
  induction h with
  | nil => cases hb
  | cons hr hrest ih =>
    rcases List.mem_cons.mp hb with rfl | hb'
    · exact ⟨_, List.mem_cons_self _ _, hr⟩
    · obtain ⟨a, ha, har⟩ := ih hb'
      exact ⟨a, List.mem_cons_of_mem _ ha, har⟩

/-- The `_peopleV2Order` sort key (`lambda p: p['_peopleV2Order']`);
the default value only totalizes the function — the theorems'
hypotheses place it on records that carry an integer order. -/
def orderKey (p : JObj) : Int :=
  match objGet p "_peopleV2Order" with
  | some (.num n) => n
  | _ => 0

/-- The `SORT_DATE` sort key (`lambda p: p['SORT_DATE']`, a datetime,
compared chronologically). -/
def dateKey (p : JObj) : Int :=
  match objGet p "SORT_DATE" with
  | some (.pydate t) => (t.code : Int)
  | _ => 0

/-- `v2_people.sort(key=lambda p: p['_peopleV2Order'])` comparison. -/
def orderLt (p q : JObj) : Bool := decide (orderKey p < orderKey q)

/-- `v2_people.sort(key=lambda p: p['SORT_DATE'])` comparison. -/
def dateLt (p q : JObj) : Bool := decide (dateKey p < dateKey q)

/-- One iteration of the record loop of `PeopleConverter._convert_v3_v2`
(lines 267-274): convert the record, then copy `_peopleV2Order` from the
v3 record onto the converted dict when present. -/
def rosterStep (now : PyDate) (wv : String × JObj) : Except PyErr JObj := do
  let p ← person_convert_v3_v2 wv.1 wv.2 now
  if containsKey wv.2 "_peopleV2Order" then
    match objGet wv.2 "_peopleV2Order" with
    | some v => pure (objSet p "_peopleV2Order" v)
    | none => pure p
  else pure p

/-- `has_legacy_order` of lines 265-274: true iff every v3 record
carries `_peopleV2Order`. -/
def hasLegacyOrder (env3 : List (String × JObj)) : Bool :=
  env3.all (fun wv => containsKey wv.2 "_peopleV2Order")

/-- The cleanup loop of lines 281-285: `del person['SORT_DATE']`
(a `KeyError` when the record never got one, i.e. had no
`statusHistory`), then `del person['_peopleV2Order']` when present. -/
def stripPerson (p : JObj) : Except PyErr JObj :=
  if containsKey p "SORT_DATE" then
    let p1 := objDel p "SORT_DATE"
    .ok (if containsKey p1 "_peopleV2Order" then objDel p1 "_peopleV2Order" else p1)
  else .error (.keyError "SORT_DATE")

/-- `PeopleConverter._convert_v3_v2` (lines 263-290), acting on the
`people` mapping in its iteration order (the constant `version` tags of
the envelopes are elided): convert every record, sort by
`_peopleV2Order` when every v3 record carried one and by the synthetic
`SORT_DATE` otherwise (Python's stable ascending sort), then strip both
transient keys from every record. -/
def peopleConvert_v3_v2 (env3 : List (String × JObj)) (now : PyDate) :
    Except PyErr (List JObj) := do
  let converted ← mapME (rosterStep now) env3
  let sorted :=
    if hasLegacyOrder env3 then stableSort orderLt converted
    else stableSort dateLt converted
  mapME stripPerson sorted

theorem stripPerson_strips (p q : JObj) (h : stripPerson p = .ok q) :
    containsKey q "SORT_DATE" = false ∧ containsKey q "_peopleV2Order" = false := by
  unfold stripPerson at h
  split at h
  · injection h with h2
    subst h2
    split
    · constructor
      · rw [containsKey_objDel_ne _ _ _ (by simp), containsKey_objDel_self]
      · rw [containsKey_objDel_self]
    · next hnc =>
      constructor
      · exact containsKey_objDel_self p "SORT_DATE"
      · simpa using hnc
  · exact Except.noConfusion h

/-- Helper for `envSet` (same shape as `objSetRest`, for the `people =
{}` mapping of the v2 → v3 roster conversion). -/
def envSetRest : List (String × JObj) → String → JObj → List (String × JObj)
  | [], _, _ => []
  | (k', w) :: rest, k, v =>
    if k' == k then (k, v) :: envSetRest rest k v else (k', w) :: envSetRest rest k v

/-- `people[wmbid] = ...` on the id-keyed mapping built by the v2 → v3
roster conversion (same dict-assignment semantics as `objSet`). -/
def envSet : List (String × JObj) → String → JObj → List (String × JObj)
  | [], k, v => [(k, v)]
  | (k', w) :: rest, k, v =>
    if k' == k then (k, v) :: envSetRest rest k v else (k', w) :: envSet rest k v

theorem envSet_fresh (l : List (String × JObj)) (k : String) (v : JObj)
    (h : ¬ k ∈ l.map Prod.fst) : envSet l k v = l ++ [(k, v)] := by
  induction l with
  | nil => rfl
  | cons hd tl ih =>
    obtain ⟨hk, hv⟩ := hd
    have hne : (hk == k) = false := by
      refine beq_eq_false_iff_ne.mpr ?_
      intro he
      exact h (by simp [he])
    simp [envSet, hne, ih (fun hm => h (by simp [hm]))]

/-- `person['id']` of a v2 roster element (a dict with a string id). -/
def personId (p : JVal) : Option String :=
  match p with
  | .obj po =>
    match objGet po "id" with
    | some (.str w) => some w
    | _ => none
  | _ => none

/-- Loop body of `PeopleConverter._convert_v2_v3` (lines 296-302):
`wmbid = person['id']`, convert the person to v3, store the result under
`wmbid` and stamp `_peopleV2Order = index`.  (The conversion also mutates
the input `person` as in `person_convert_v2_v3`; only the stored result
matters here.) -/
def rosterStepV2 (acc : List (String × JObj)) (idx : Nat) (person : JVal) :
    Except PyErr (List (String × JObj)) :=
  match person with
  | .obj po =>
    match objGet po "id" with
    | some (.str w) =>
      match (person_convert_v2_v3 po).1 with
      | .ok newp => .ok (envSet acc w (objSet newp "_peopleV2Order" (.num idx)))
      | .error e => .error e
    | some _ => .error .typeError
    | none => .error (.keyError "id")
  | _ => .error .typeError

/-- The loop of `PeopleConverter._convert_v2_v3` with its running
`index`. -/
def peopleConvertV2V3Go (acc : List (String × JObj)) (idx : Nat) :
    List JVal → Except PyErr (List (String × JObj))
  | [] => .ok acc
  | p :: ps =>
    match rosterStepV2 acc idx p with
    | .ok acc' => peopleConvertV2V3Go acc' (idx + 1) ps
    | .error e => .error e

/-- `PeopleConverter._convert_v2_v3` (lines 292-307), acting on the v2
`people` array (the constant `version` tags are elided): build the
id-keyed mapping, stamping each record's zero-based position as
`_peopleV2Order`. -/
def peopleConvert_v2_v3 (ps : List JVal) : Except PyErr (List (String × JObj)) :=
  peopleConvertV2V3Go [] 0 ps

theorem peopleConvertV2V3Go_spec (ps : List JVal) :
    ∀ (acc : List (String × JObj)) (idx : Nat) (out : List (String × JObj)),
    (∀ p ∈ ps, ∀ w, personId p = some w → ¬ w ∈ acc.map Prod.fst) →
    (ps.map personId).Nodup →
    peopleConvertV2V3Go acc idx ps = .ok out →
    ∃ rest, out = acc ++ rest ∧ rest.length = ps.length ∧
      ∀ i, i < ps.length →
        ∃ pr, rest.get? i = some pr ∧
          objGet pr.2 "_peopleV2Order" = some (.num (idx + i)) := by
  induction ps with
  | nil =>
    intro acc idx out hfresh hnd hok
    simp only [peopleConvertV2V3Go] at hok
    injection hok with h2
    subst h2
    exact ⟨[], by simp, rfl, fun i hi => absurd hi (by simp)⟩
  | cons p ps' ih =>
    intro acc idx out hfresh hnd hok
    simp only [peopleConvertV2V3Go] at hok
    rcases hstep : rosterStepV2 acc idx p with e | acc1
    · simp only [hstep] at hok
      exact Except.noConfusion hok
    · simp only [hstep] at hok
      unfold rosterStepV2 at hstep
      cases p with
      | obj po =>
        rcases hid : objGet po "id" with _ | idv
        · simp only [hid] at hstep
          exact Except.noConfusion hstep
        · simp only [hid] at hstep
          cases idv with
          | str w =>
            rcases hconv : (person_convert_v2_v3 po).1 with e | newp
            · simp only [hconv] at hstep
              exact Except.noConfusion hstep
            · simp only [hconv] at hstep
              injection hstep with hstep2
              have hw : personId (JVal.obj po) = some w := by simp [personId, hid]
              have hwf : ¬ w ∈ acc.map Prod.fst :=
                hfresh _ (List.mem_cons_self _ _) w hw
              have hacc1 : acc1 = acc ++ [(w, objSet newp "_peopleV2Order" (.num idx))] := by
                rw [← hstep2, envSet_fresh acc w _ hwf]
              have hnd2 : ¬ personId (JVal.obj po) ∈ ps'.map personId ∧
                  (ps'.map personId).Nodup := by
                rw [List.map_cons, List.nodup_cons] at hnd
                exact hnd
              have hfresh' : ∀ q ∈ ps', ∀ w', personId q = some w' →
                  ¬ w' ∈ acc1.map Prod.fst := by
                intro q hq w' hw' hmem
                rw [hacc1] at hmem
                simp only [List.map_append, List.mem_append, List.map_cons, List.map_nil,
                  List.mem_singleton] at hmem
                rcases hmem with hmem | hmem
                · exact hfresh q (List.mem_cons_of_mem _ hq) w' hw' hmem
                · apply hnd2.1
                  rw [hw, ← hmem, ← hw']
                  exact List.mem_map_of_mem personId hq
              obtain ⟨rest', hout, hlen, hidx⟩ := ih acc1 (idx + 1) out hfresh' hnd2.2 hok
              refine ⟨(w, objSet newp "_peopleV2Order" (.num idx)) :: rest', ?_,
                by simp [hlen], ?_⟩
              · rw [hout, hacc1]
                simp
              · intro i hi
                cases i with
                | zero =>
                  refine ⟨(w, objSet newp "_peopleV2Order" (.num idx)), rfl, ?_⟩
                  rw [objGet_objSet_self]
                  norm_num
                | succ j =>
                  have hj : j < ps'.length := by simpa using hi
                  obtain ⟨pr, hpr, hord⟩ := hidx j hj
                  refine ⟨pr, by simpa using hpr, ?_⟩
                  rw [hord]
                  congr 2
                  push_cast
                  ring
          | null => simp only at hstep; exact Except.noConfusion hstep
          | bool b => simp only at hstep; exact Except.noConfusion hstep
          | num n => simp only at hstep; exact Except.noConfusion hstep
          | arr a => simp only at hstep; exact Except.noConfusion hstep
          | obj o => simp only at hstep; exact Except.noConfusion hstep
          | pydate t => simp only at hstep; exact Except.noConfusion hstep
      | null => exact Except.noConfusion hstep
      | bool b => exact Except.noConfusion hstep
      | num n => exact Except.noConfusion hstep
      | str s => exact Except.noConfusion hstep
      | arr a => exact Except.noConfusion hstep
      | pydate t => exact Except.noConfusion hstep

/-- C7: (a) roster v2 → v3 conversion assigns each record, in original
sequence order, a `_peopleV2Order` equal to its zero-based position
(given distinct ids, so no mapping entry is overwritten).  (b) In roster
v3 → v2 conversion the output is the per-record conversions sorted by
`_peopleV2Order` exactly when every v3 record carries that key and by
the synthetic `SORT_DATE` otherwise — the sorted stage is a permutation
of the conversions, pairwise ordered by the respective key — and in the
final output both `SORT_DATE` and `_peopleV2Order` are absent from every
record regardless of which ordering key was used. -/
theorem C7_theorem :
    (∀ (ps : List JVal) (out : List (String × JObj)),
      (ps.map personId).Nodup →
      peopleConvert_v2_v3 ps = .ok out →
      out.length = ps.length ∧
      ∀ i, i < ps.length → ∃ pr, out.get? i = some pr ∧
        objGet pr.2 "_peopleV2Order" = some (.num i))
    ∧ (∀ (env3 : List (String × JObj)) (now : PyDate) (conv out : List JObj),
      mapME (rosterStep now) env3 = .ok conv →
      peopleConvert_v3_v2 env3 now = .ok out →
      (∀ p ∈ out, containsKey p "SORT_DATE" = false ∧ containsKey p "_peopleV2Order" = false)
      ∧ (hasLegacyOrder env3 = true →
          List.Perm (stableSort orderLt conv) conv ∧
          (stableSort orderLt conv).Pairwise (fun a b => ¬ orderKey b < orderKey a) ∧
          List.Forall₂ (fun p q => stripPerson p = .ok q) (stableSort orderLt conv) out)
      ∧ (hasLegacyOrder env3 = false →
          List.Perm (stableSort dateLt conv) conv ∧
          (stableSort dateLt conv).Pairwise (fun a b => ¬ dateKey b < dateKey a) ∧
          List.Forall₂ (fun p q => stripPerson p = .ok q) (stableSort dateLt conv) out)) := by
  constructor
  · intro ps out hnd hok
    obtain ⟨rest, hout, hlen, hidx⟩ :=
      peopleConvertV2V3Go_spec ps [] 0 out (fun p hp w hw hm => by simp at hm) hnd hok
    subst hout
    refine ⟨by simpa using hlen, ?_⟩
    intro i hi
    obtain ⟨pr, hpr, hord⟩ := hidx i hi
    exact ⟨pr, by simpa using hpr, by simpa using hord⟩
  · intro env3 now conv out hconv hok
    unfold peopleConvert_v3_v2 at hok
    simp only [Bind.bind, Except.bind, hconv] at hok
    by_cases hleg : hasLegacyOrder env3 = true
    · simp [hleg] at hok
      have hf := mapME_ok_forall₂ _ _ _ hok
      refine ⟨?_, ?_, ?_⟩
      · intro p hp
        obtain ⟨a, ha, har⟩ := forall₂_mem_right hf p hp
        exact stripPerson_strips a p har
      · intro _
        exact ⟨stableSort_perm orderLt conv, pairwise_stableSort orderKey conv, hf⟩
      · intro hfalse
        exact absurd (hleg.symm.trans hfalse) (by decide)
    · have hleg' : hasLegacyOrder env3 = false := by
        cases h : hasLegacyOrder env3
        · rfl
        · exact absurd h hleg
      simp [hleg'] at hok
      have hf := mapME_ok_forall₂ _ _ _ hok
      refine ⟨?_, ?_, ?_⟩
      · intro p hp
        obtain ⟨a, ha, har⟩ := forall₂_mem_right hf p hp
        exact stripPerson_strips a p har
      · intro htrue
        exact absurd (hleg'.symm.trans htrue) (by decide)
      · intro _
        exact ⟨stableSort_perm dateLt conv, pairwise_stableSort dateKey conv, hf⟩

/-- A two-record v2 roster with distinct ids. -/
def c7ps : List JVal := [JVal.obj [("id", JVal.str "a")], JVal.obj [("id", JVal.str "b")]]

/-- The v3 mapping the code produces for `c7ps`. -/
def c7outA : List (String × JObj) :=
  [("a", [("minecraft", JVal.obj []),
          ("statusHistory", JVal.arr [JVal.obj [("status", JVal.str "later")]]),
          ("_peopleV2Order", JVal.num 0)]),
   ("b", [("minecraft", JVal.obj []),
          ("statusHistory", JVal.arr [JVal.obj [("status", JVal.str "later")]]),
          ("_peopleV2Order", JVal.num 1)])]

/-- A two-record v3 roster in which both records carry `_peopleV2Order`
(in reversed order, so the legacy sort must swap them). -/
def c7envB : List (String × JObj) :=
  [("a", [("statusHistory", JVal.arr [JVal.obj [("status", JVal.str "later"),
      ("date", JVal.str "2014-01-01T00:00:00Z")]]), ("_peopleV2Order", JVal.num 1)]),
   ("b", [("statusHistory", JVal.arr [JVal.obj [("status", JVal.str "later"),
      ("date", JVal.str "2013-01-01T00:00:00Z")]]), ("_peopleV2Order", JVal.num 0)])]

/-- The per-record conversions (with transient keys) of `c7envB`. -/
def c7convB : List JObj :=
  [[("id", JVal.str "a"), ("status", JVal.str "postfreeze"),
    ("join_date", JVal.str "2014-01-01T00:00:00Z"),
    ("SORT_DATE", JVal.pydate ⟨2014, 1, 1, 0, 0, 0⟩), ("_peopleV2Order", JVal.num 1)],
   [("id", JVal.str "b"), ("status", JVal.str "later"),
    ("join_date", JVal.str "2013-01-01T00:00:00Z"),
    ("SORT_DATE", JVal.pydate ⟨2013, 1, 1, 0, 0, 0⟩), ("_peopleV2Order", JVal.num 0)]]

/-- The final v2 list for `c7envB`: sorted by `_peopleV2Order` (record
`b` first) and stripped of both transient keys. -/
def c7outB : List JObj :=
  [[("id", JVal.str "b"), ("status", JVal.str "later"),
    ("join_date", JVal.str "2013-01-01T00:00:00Z")],
   [("id", JVal.str "a"), ("status", JVal.str "postfreeze"),
    ("join_date", JVal.str "2014-01-01T00:00:00Z")]]

/-- Witness for C7: on the two-record rosters, v2 → v3 stamps positions
0 and 1, and v3 → v2 output records carry neither `SORT_DATE` nor
`_peopleV2Order`. -/
theorem C7_witness :
    (c7outA.length = 2 ∧
      (∃ pr, c7outA.get? 1 = some pr ∧ objGet pr.2 "_peopleV2Order" = some (JVal.num 1)))
    ∧ ∀ p ∈ c7outB, containsKey p "SORT_DATE" = false ∧
        containsKey p "_peopleV2Order" = false := by
  constructor
  · have h := C7_theorem.1 c7ps c7outA (by decide) (by rfl)
    exact ⟨h.1, by simpa using h.2 1 (by decide)⟩
  · intro p hp
    exact (C7_theorem.2 c7envB cutoffDate c7convB c7outB (by rfl) (by rfl)).1 p hp
